import Mathlib

/-!
Verification of `src/predictions.py`: a power-law curve fitter
(`power_law_fit`, lines 34-44 of the source), the coefficient-table
construction inside `main` (lines 55-66), and the interactive
prediction code (`calc`, lines 77-79, and the per-turn loop body,
lines 92-105).

Python floats are modelled as real numbers, so floating-point rounding
disappears and "within floating-point tolerance" becomes exact equality.
Python and numpy exceptions are modelled with an explicit `Except` error
type; an exception that the source does not catch is modelled by the
error propagating to the result of the enclosing modelled function.
-/

/-- Exceptions the Python source can raise on the modelled paths. -/
inductive PyError where
  /-- Python `KeyError`: a missing dictionary key, as in `data["log generation"]`. -/
  | keyError
  /-- Python `ValueError: math domain error`, raised by `math.pow`. -/
  | valueError
  /-- numpy `TypeError: expected non-empty vector for x`, raised by `np.polyfit`
  on an empty sample vector. -/
  | typeError
  /-- numpy `LinAlgError`: `lstsq` fails when the column scaling inside
  `np.polyfit` divides by a zero column norm and produces nans. -/
  | linAlgError
  deriving DecidableEq, Repr

/-- The sample pairs surviving the positivity mask of line 37,
`mask = (x > 0) & (y > 0)`, applied to the zipped parallel series. -/
noncomputable def keptPairs (x y : List ℝ) : List (ℝ × ℝ) :=
  (x.zip y).filter fun p => decide (0 < p.1 ∧ 0 < p.2)

/-- Model of `np.polyfit(lx, ly, 1)` (line 42), returning the pair
`(slope, intercept)`, highest degree first, exactly as numpy does.

On an empty input numpy raises `TypeError` before doing any algebra.
When the log-x values are not all equal, the degree-1 Vandermonde matrix has
full rank and `lstsq` returns the unique ordinary-least-squares line, whose
closed form is the `else` branch below.  When all log-x values are equal the
matrix is rank-deficient: numpy scales each column by its Euclidean norm,
`lstsq` then returns the minimum-norm least-squares solution, and un-scaling
yields the values in the `d = 0` branch; when additionally the log-x column is
identically zero, the scaling divides by a zero norm, the matrix fills with
nans, and `lstsq` raises `LinAlgError`.  Both callers pass `lx` and `ly` of
equal length, so the equal-length check of numpy is not modelled. -/
noncomputable def polyfit1 (lx ly : List ℝ) : Except PyError (ℝ × ℝ) :=
  if lx.length = 0 then .error .typeError
  else
    let n : ℝ := lx.length
    let sx := lx.sum
    let sy := ly.sum
    let sxx := (lx.map fun t => t ^ 2).sum
    let sxy := ((lx.zip ly).map fun p => p.1 * p.2).sum
    let d := n * sxx - sx ^ 2
    if d = 0 then
      if lx.headI = 0 then .error .linAlgError
      else .ok (sy / (2 * n * lx.headI), sy / (2 * n))
    else
      let b := (n * sxy - sx * sy) / d
      .ok (b, (sy - b * sx) / n)

/-- `power_law_fit` of lines 34-44: positivity mask, log transform,
degree-1 least squares `b, log_a = np.polyfit(log_x, log_y, 1)`, and
`a = np.exp(log_a)`; returns `(a, b)` for the model `y = a * x ** b`. -/
noncomputable def power_law_fit (x y : List ℝ) : Except PyError (ℝ × ℝ) :=
  let kept := keptPairs x y
  let log_x := kept.map fun p => Real.log p.1
  let log_y := kept.map fun p => Real.log p.2
  (polyfit1 log_x log_y).map fun p => (Real.exp p.2, p.1)

/-- Python `str.lower()` on the ASCII metric names used by the program:
every character is lower-cased.  (Defined through the character list because
`String.map` does not reduce in the kernel.) -/
def pyLower (s : String) : String := ⟨s.data.map Char.toLower⟩

/-- A loaded CSV, as `read_csv` returns it: an association list from column
name to the column's values (`main` uses each column name once, so
association-list lookup agrees with Python dict lookup). -/
abbrev Columns := List (String × List ℝ)

/-- Dictionary access `data[name]` on the loaded columns, as an `Option`. -/
def lookupCol (data : Columns) (name : String) : Option (List ℝ) :=
  (data.find? fun p => p.1 == name).map Prod.snd

/-- The coefficient dictionary `coeff` built by `main`, keyed by the
lower-cased metric name. -/
abbrev CoeffTable := List (String × (ℝ × ℝ))

/-- Dictionary access `coeff[key]`, as an `Option`. -/
def lookupCoeff (coeff : CoeffTable) (key : String) : Option (ℝ × ℝ) :=
  (coeff.find? fun p => p.1 == key).map Prod.snd

/-- The fitting loop of `main`, lines 62-66: for each target name, skip it
when its column is absent (only a notice is printed), otherwise fit against
the independent column and store the result under the lower-cased name.
The loop body catches nothing, so an exception raised by `power_law_fit`
aborts the whole loop. -/
noncomputable def fitTargets (xcol : List ℝ) (data : Columns) :
    List String → Except PyError CoeffTable
  | [] => .ok []
  | name :: rest =>
    match lookupCol data name with
    | none => fitTargets xcol data rest
    | some col =>
      (power_law_fit xcol col).bind fun ab =>
        (fitTargets xcol data rest).map fun tail => (pyLower name, ab) :: tail

/-- Lines 55-66 of `main`: `x = data["log generation"]` (a `KeyError` aborts
everything when that column is missing), then the fitting loop over the
target names. -/
noncomputable def buildCoeff (data : Columns) (targets : List String) :
    Except PyError CoeffTable :=
  match lookupCol data "log generation" with
  | none => .error .keyError
  | some xcol => fitTargets xcol data targets

open Classical in
/-- Python `math.pow` on real arguments: a positive base gives the real
power; a zero base demands a nonnegative exponent and otherwise raises
`ValueError: math domain error` (`math.pow(0.0, 0.0)` is `1.0`, matching
`Real.rpow`); a negative base demands an integral exponent, where the real
power `Real.rpow` again agrees with the float result `x ** k`. -/
noncomputable def mathPow (x b : ℝ) : Except PyError ℝ :=
  if 0 < x then .ok (x ^ b)
  else if x = 0 then (if 0 ≤ b then .ok (x ^ b) else .error .valueError)
  else if ∃ k : ℤ, b = (k : ℝ) then .ok (x ^ b) else .error .valueError

/-- The prediction function `calc` of lines 77-79:
`a, b = coeff[y_name]; return a * math.pow(x_val, b)`.
(`calc` is a Lean keyword, hence the name.) -/
noncomputable def calcFn (coeff : CoeffTable) (yName : String) (xVal : ℝ) :
    Except PyError ℝ :=
  match lookupCoeff coeff yName with
  | none => .error .keyError
  | some ab => (mathPow xVal ab.2).map fun p => ab.1 * p

/-- One turn of the interactive loop, lines 93-105: walk the target names in
order, lower-case each, skip it when absent from `coeff`, otherwise predict
through `calc` and emit `(lower-cased name, predicted value)`.  An uncaught
exception from `calc` aborts the turn (and the program). -/
noncomputable def evaluateAll (coeff : CoeffTable) (targets : List String)
    (xVal : ℝ) : Except PyError (List (String × ℝ)) :=
  match targets with
  | [] => .ok []
  | name :: rest =>
    match lookupCoeff coeff (pyLower name) with
    | none => evaluateAll coeff rest xVal
    | some _ =>
      (calcFn coeff (pyLower name) xVal).bind fun y =>
        (evaluateAll coeff rest xVal).map fun tail => (pyLower name, y) :: tail

/-! ### Helper lemmas about the positivity mask -/

lemma keptPairs_nil : keptPairs [] [] = [] := rfl

lemma keptPairs_cons_pos {a b : ℝ} (ha : 0 < a) (hb : 0 < b) (xs ys : List ℝ) :
    keptPairs (a :: xs) (b :: ys) = (a, b) :: keptPairs xs ys := by
  simp [keptPairs, List.filter_cons, ha, hb]

lemma keptPairs_cons_skip {a b : ℝ} (h : ¬(0 < a ∧ 0 < b)) (xs ys : List ℝ) :
    keptPairs (a :: xs) (b :: ys) = keptPairs xs ys := by
  simp only [keptPairs, List.zip_cons_cons, List.filter_cons]
  rw [if_neg (by simpa using h)]

lemma keptPairs_mem_pos {x y : List ℝ} {p : ℝ × ℝ} (hp : p ∈ keptPairs x y) :
    0 < p.1 ∧ 0 < p.2 := by
  have := List.of_mem_filter hp
  simpa using this

/-- Re-filtering an already filtered pair list changes nothing. -/
lemma keptPairs_self (l : List (ℝ × ℝ)) (h : ∀ p ∈ l, 0 < p.1 ∧ 0 < p.2) :
    keptPairs (l.map Prod.fst) (l.map Prod.snd) = l := by
  induction l with
  | nil => rfl
  | cons p l ih =>
    obtain ⟨a, b⟩ := p
    rw [List.map_cons, List.map_cons,
      keptPairs_cons_pos (h (a, b) (by simp)).1 (h (a, b) (by simp)).2,
      ih fun q hq => h q (by simp [hq])]

/-- When every sample is positive, the mask keeps everything. -/
lemma keptPairs_all_pos (g : ℝ → ℝ) (xs : List ℝ)
    (hx : ∀ t ∈ xs, 0 < t) (hg : ∀ t ∈ xs, 0 < g t) :
    keptPairs xs (xs.map g) = xs.map fun t => (t, g t) := by
  induction xs with
  | nil => rfl
  | cons a l ih =>
    rw [List.map_cons, keptPairs_cons_pos (hx a (by simp)) (hg a (by simp)),
      ih (fun t ht => hx t (by simp [ht])) (fun t ht => hg t (by simp [ht])),
      List.map_cons]

/-! ### Helper lemmas about sums -/

lemma sum_map_affine (l : List ℝ) (p q : ℝ) :
    (l.map fun t => p + q * t).sum = l.length * p + q * l.sum := by
  induction l with
  | nil => simp
  | cons a l ih => simp [ih]; ring

lemma sum_zip_mul_affine (l : List ℝ) (p q : ℝ) :
    ((l.zip (l.map fun s => p + q * s)).map fun w => w.1 * w.2).sum
      = p * l.sum + q * (l.map fun t => t ^ 2).sum := by
  induction l with
  | nil => simp
  | cons a l ih => simp [ih]; ring

lemma sum_map_sq_affine (l : List ℝ) (c e : ℝ) :
    (l.map fun t => (c * t - e) ^ 2).sum
      = c ^ 2 * (l.map fun t => t ^ 2).sum - 2 * c * e * l.sum
        + l.length * e ^ 2 := by
  induction l with
  | nil => simp
  | cons a l ih => simp [ih]; ring

/-- A list with two different entries has positive variance; this is the
non-degeneracy condition making the degree-1 least-squares problem uniquely
solvable. -/
lemma variance_pos (l : List ℝ) (h : ∃ u ∈ l, ∃ v ∈ l, u ≠ v) :
    0 < (l.length : ℝ) * (l.map fun t => t ^ 2).sum - l.sum ^ 2 := by
  obtain ⟨u, hu, v, hv, huv⟩ := h
  have hne : l ≠ [] := by rintro rfl; exact absurd hu (by simp)
  have hn : 0 < (l.length : ℝ) := by
    have := List.length_pos.mpr hne
    exact_mod_cast this
  have hT : (l.map fun t => ((l.length : ℝ) * t - l.sum) ^ 2).sum
      = (l.length : ℝ) * ((l.length : ℝ) * (l.map fun t => t ^ 2).sum - l.sum ^ 2) := by
    rw [sum_map_sq_affine]; ring
  have key : ∃ w ∈ l, (l.length : ℝ) * w - l.sum ≠ 0 := by
    by_contra hc
    push_neg at hc
    have h1 := hc u hu
    have h2 := hc v hv
    exact huv (mul_left_cancel₀ hn.ne' (by linarith))
  obtain ⟨w, hw, hw0⟩ := key
  have hmem : ((l.length : ℝ) * w - l.sum) ^ 2
      ∈ l.map fun t => ((l.length : ℝ) * t - l.sum) ^ 2 :=
    List.mem_map_of_mem _ hw
  have hnonneg : ∀ z ∈ l.map fun t => ((l.length : ℝ) * t - l.sum) ^ 2, 0 ≤ z := by
    intro z hz
    obtain ⟨t, -, rfl⟩ := List.mem_map.mp hz
    exact sq_nonneg _
  have hTpos : 0 < (l.map fun t => ((l.length : ℝ) * t - l.sum) ^ 2).sum :=
    lt_of_lt_of_le (pow_two_pos_of_ne_zero hw0) (List.single_le_sum hnonneg _ hmem)
  rw [hT] at hTpos
  nlinarith

/-! ### The exact-fit computation -/

/-- Master computation: on samples lying exactly on the log-line
`log y = α + β * log x` (written with explicit exponentials so the log
transform is literal), with at least two distinct log-x values, the fitter
returns exactly `(exp α, β)`. -/
lemma fit_affine_core (L : List ℝ) (α β : ℝ)
    (hdist : ∃ u ∈ L, ∃ v ∈ L, u ≠ v) :
    power_law_fit (L.map Real.exp) (L.map fun s => Real.exp (α + β * s))
      = .ok (Real.exp α, β) := by
  have hne : L ≠ [] := by
    obtain ⟨u, hu, -⟩ := hdist
    rintro rfl; exact absurd hu (by simp)
  have hkept : keptPairs (L.map Real.exp) (L.map fun s => Real.exp (α + β * s))
      = L.map fun s => (Real.exp s, Real.exp (α + β * s)) := by
    unfold keptPairs
    rw [List.zip_map']
    apply List.filter_eq_self.mpr
    intro p hp
    obtain ⟨s, -, rfl⟩ := List.mem_map.mp hp
    simp [Real.exp_pos]
  have hlogx : (L.map fun s => (Real.exp s, Real.exp (α + β * s))).map
      (fun p => Real.log p.1) = L := by
    simp [List.map_map, Function.comp_def, Real.log_exp]
  have hlogy : (L.map fun s => (Real.exp s, Real.exp (α + β * s))).map
      (fun p => Real.log p.2) = L.map fun s => α + β * s := by
    simp [List.map_map, Function.comp_def, Real.log_exp]
  have hlen : ¬ L.length = 0 := by simpa using hne
  have hd : ¬ ((L.length : ℝ) * (L.map fun t => t ^ 2).sum - L.sum ^ 2 = 0) :=
    ne_of_gt (variance_pos L hdist)
  have hn : (L.length : ℝ) ≠ 0 := by
    simpa using hlen
  simp only [power_law_fit]
  rw [hkept, hlogx, hlogy]
  simp only [polyfit1, hlen, if_false, sum_map_affine, sum_zip_mul_affine]
  rw [if_neg hd]
  have hb : ((L.length : ℝ) * (α * L.sum + β * (L.map fun t => t ^ 2).sum)
        - L.sum * ((L.length : ℝ) * α + β * L.sum))
      / ((L.length : ℝ) * (L.map fun t => t ^ 2).sum - L.sum ^ 2) = β := by
    rw [div_eq_iff hd]; ring
  rw [hb]
  have ha : ((L.length : ℝ) * α + β * L.sum - β * L.sum) / (L.length : ℝ) = α := by
    field_simp
  rw [ha]
  rfl

/-! ### Degenerate (rank-deficient) computations -/

/-- A single surviving point: `np.polyfit` warns but still returns the
minimum-norm solution instead of raising. -/
lemma polyfit1_single (s w : ℝ) (hs : s ≠ 0) :
    polyfit1 [s] [w] = .ok (w / (2 * s), w / 2) := by
  simp only [polyfit1, List.length_cons, List.length_nil, List.sum_cons,
    List.sum_nil, List.map_cons, List.map_nil, List.zip_cons_cons,
    List.zip_nil_right, List.headI]
  norm_num
  intro h
  exact absurd h hs

/-- Two points with the same abscissa: the same minimum-norm degenerate
solution, averaged. -/
lemma polyfit1_two_const (s w : ℝ) (hs : s ≠ 0) :
    polyfit1 [s, s] [w, w] = .ok (w / (2 * s), w / 2) := by
  simp only [polyfit1, List.length_cons, List.length_nil, List.sum_cons,
    List.sum_nil, List.map_cons, List.map_nil, List.zip_cons_cons,
    List.zip_nil_right, List.headI]
  rw [if_neg (by norm_num), if_pos (by push_cast; ring), if_neg hs]
  congr 2
  · push_cast; field_simp; ring
  · push_cast; field_simp; ring

lemma fit_single (s w : ℝ) (hs : s ≠ 0) :
    power_law_fit [Real.exp s] [Real.exp w]
      = .ok (Real.exp (w / 2), w / (2 * s)) := by
  have hk : keptPairs [Real.exp s] [Real.exp w] = [(Real.exp s, Real.exp w)] := by
    rw [keptPairs_cons_pos (Real.exp_pos s) (Real.exp_pos w), keptPairs_nil]
  simp only [power_law_fit, hk, List.map_cons, List.map_nil, Real.log_exp]
  rw [polyfit1_single s w hs]
  rfl

lemma fit_two_const (s w : ℝ) (hs : s ≠ 0) :
    power_law_fit [Real.exp s, Real.exp s] [Real.exp w, Real.exp w]
      = .ok (Real.exp (w / 2), w / (2 * s)) := by
  have hk : keptPairs [Real.exp s, Real.exp s] [Real.exp w, Real.exp w]
      = [(Real.exp s, Real.exp w), (Real.exp s, Real.exp w)] := by
    rw [keptPairs_cons_pos (Real.exp_pos s) (Real.exp_pos w),
      keptPairs_cons_pos (Real.exp_pos s) (Real.exp_pos w), keptPairs_nil]
  simp only [power_law_fit, hk, List.map_cons, List.map_nil, Real.log_exp]
  rw [polyfit1_two_const s w hs]
  rfl

/-! ### Concrete fits used as witnesses -/

/-- The two-point data set `x = [1, e]`, `y = [1, e]` lies on `y = 1 * x ** 1`
and is fitted exactly. -/
lemma fit_demo : power_law_fit [1, Real.exp 1] [1, Real.exp 1] = .ok (1, 1) := by
  have h := fit_affine_core [0, 1] 0 1
    ⟨0, by simp, 1, by simp, by norm_num⟩
  simpa [Real.exp_zero] using h

/-- Fit with no surviving sample: the mask empties the data. -/
lemma fit_neg_error : power_law_fit [1, Real.exp 1] [-1, -1] = .error .typeError := by
  have hk : keptPairs [(1 : ℝ), Real.exp 1] [(-1 : ℝ), -1] = [] := by
    rw [keptPairs_cons_skip (by norm_num), keptPairs_cons_skip (by norm_num),
      keptPairs_nil]
  simp only [power_law_fit, hk, List.map_nil]
  rfl

/-! ### C2: evaluate reproduces the stored power law at positive x -/

/-- C2: for every stored coefficient pair `(a, b)` under a metric key and
every positive `x`, `calc` returns exactly `a * x ** b`. -/
theorem calcFn_pos_eval (coeff : CoeffTable) (key : String) (a b x : ℝ)
    (hkey : lookupCoeff coeff key = some (a, b)) (hx : 0 < x) :
    calcFn coeff key x = .ok (a * x ^ b) := by
  simp only [calcFn, hkey, mathPow, if_pos hx]
  rfl

/-- C2 witness: with the table holding `"cpu load" ↦ (2, 1)`, evaluating at
`x = 10` yields exactly `20`. -/
theorem calcFn_pos_eval_witness :
    calcFn [("cpu load", ((2 : ℝ), (1 : ℝ)))] "cpu load" 10 = .ok 20 := by
  have h := calcFn_pos_eval [("cpu load", ((2 : ℝ), (1 : ℝ)))] "cpu load" 2 1 10
    rfl (by norm_num)
  rw [h]
  norm_num [Real.rpow_one]

/-! ### C4: behaviour when fewer than two samples survive the mask -/

/-- C4 counterexample: with exactly one surviving sample pair, the code does
not fail at all (no `InsufficientDataError` exists in the source): `polyfit`
only warns and returns the degenerate minimum-norm fit. -/
theorem power_law_fit_single_point_counterexample :
    (keptPairs [Real.exp 1] [Real.exp 1]).length = 1 ∧
    power_law_fit [Real.exp 1] [Real.exp 1] = .ok (Real.exp (1 / 2), 1 / 2) := by
  constructor
  · rw [keptPairs_cons_pos (Real.exp_pos 1) (Real.exp_pos 1), keptPairs_nil]
    rfl
  · have h := fit_single 1 1 one_ne_zero
    simpa using h

/-- A single surviving point whose log-x is zero: `np.polyfit`'s column
scaling divides by the zero norm of the x column and `lstsq` fails on the
resulting nans. -/
lemma polyfit1_single_zero (w : ℝ) : polyfit1 [0] [w] = .error .linAlgError := by
  simp only [polyfit1, List.length_cons, List.length_nil, List.sum_cons,
    List.sum_nil, List.map_cons, List.map_nil, List.headI]
  norm_num

/-- C4 amended: no `InsufficientDataError` exists in the code.  With zero
surviving sample pairs, the fit fails with numpy's `TypeError` on an empty
vector.  With exactly one surviving pair it does not report insufficient data
either: `np.polyfit` warns and returns the degenerate minimum-norm fit when
the point's log-x is nonzero, and fails with numpy's `LinAlgError` (a zero
column norm in polyfit's scaling) when its log-x is zero. -/
theorem power_law_fit_insufficient_data :
    (∀ x y : List ℝ, keptPairs x y = [] →
      power_law_fit x y = .error .typeError)
    ∧ (∀ (x y : List ℝ) (p : ℝ × ℝ), keptPairs x y = [p] → Real.log p.1 ≠ 0 →
      power_law_fit x y
        = .ok (Real.exp (Real.log p.2 / 2), Real.log p.2 / (2 * Real.log p.1)))
    ∧ (∀ (x y : List ℝ) (p : ℝ × ℝ), keptPairs x y = [p] → Real.log p.1 = 0 →
      power_law_fit x y = .error .linAlgError) := by
  refine ⟨?_, ?_, ?_⟩
  · intro x y h
    simp only [power_law_fit, h, List.map_nil]
    rfl
  · intro x y p h hne
    simp only [power_law_fit, h, List.map_cons, List.map_nil]
    rw [polyfit1_single (Real.log p.1) (Real.log p.2) hne]
    rfl
  · intro x y p h h0
    simp only [power_law_fit, h, List.map_cons, List.map_nil, h0]
    rw [polyfit1_single_zero]
    rfl

/-- C4 witness: one concrete input per branch: a fully masked sample errors
with the empty-vector `TypeError`; a single surviving pair at `x = e^2`
returns a degenerate fit; a single surviving pair at `x = 1` errors with
`LinAlgError`. -/
theorem power_law_fit_insufficient_data_witness :
    power_law_fit [-1] [5] = .error .typeError
    ∧ power_law_fit [Real.exp 2] [Real.exp 3] = .ok (Real.exp (3 / 2), 3 / 4)
    ∧ power_law_fit [1] [5] = .error .linAlgError := by
  refine ⟨?_, ?_, ?_⟩
  · exact power_law_fit_insufficient_data.1 [-1] [5]
      (by rw [keptPairs_cons_skip (by norm_num), keptPairs_nil])
  · have h := power_law_fit_insufficient_data.2.1 [Real.exp 2] [Real.exp 3]
      (Real.exp 2, Real.exp 3)
      (by rw [keptPairs_cons_pos (Real.exp_pos 2) (Real.exp_pos 3), keptPairs_nil])
      (by simp [Real.log_exp])
    rw [h]
    norm_num [Real.log_exp]
  · exact power_law_fit_insufficient_data.2.2 [1] [5] (1, 5)
      (by rw [keptPairs_cons_pos (by norm_num) (by norm_num), keptPairs_nil])
      (by simp)

/-! ### C5: a failing fit is not confined to its metric -/

/-- C5 counterexample: targets `["TX", "RX"]` where `"TX"` fits successfully
and then fitting `"RX"` raises (its column has no positive sample): the whole
build aborts with the error, discarding the already computed `"tx"` entry; no
table at all is produced, so the failure is not confined to the one metric. -/
theorem buildCoeff_abort_counterexample :
    buildCoeff [("log generation", [1, Real.exp 1]), ("TX", [(1 : ℝ), Real.exp 1]),
        ("RX", [-1, -1])] ["TX", "RX"]
      = .error .typeError := by
  have h1 : lookupCol [("log generation", [1, Real.exp 1]),
      ("TX", [(1 : ℝ), Real.exp 1]), ("RX", [-1, -1])] "log generation"
      = some [1, Real.exp 1] := rfl
  have h2 : lookupCol [("log generation", [1, Real.exp 1]),
      ("TX", [(1 : ℝ), Real.exp 1]), ("RX", [-1, -1])] "TX"
      = some [(1 : ℝ), Real.exp 1] := rfl
  have h3 : lookupCol [("log generation", [1, Real.exp 1]),
      ("TX", [(1 : ℝ), Real.exp 1]), ("RX", [-1, -1])] "RX"
      = some [-1, -1] := rfl
  simp only [buildCoeff, h1, fitTargets, h2, fit_demo, h3, fit_neg_error]
  rfl

/-- The fitting loop aborts with a fit error raised at any position, however
many earlier targets were skipped or fit successfully. -/
lemma fitTargets_error_after (xcol : List ℝ) (data : Columns) (name : String)
    (rest : List String) (col : List ℝ) (e : PyError)
    (hcol : lookupCol data name = some col)
    (hfit : power_law_fit xcol col = .error e) :
    ∀ pre : List String,
      (∀ n ∈ pre, ∀ c, lookupCol data n = some c →
        ∃ ab, power_law_fit xcol c = .ok ab) →
      fitTargets xcol data (pre ++ name :: rest) = .error e := by
  intro pre
  induction pre with
  | nil =>
    intro _
    simp only [List.nil_append, fitTargets, hcol, hfit]
    rfl
  | cons n pre2 ih =>
    intro hpre
    have ih2 := ih fun m hm c hc => hpre m (by simp [hm]) c hc
    simp only [List.cons_append, fitTargets]
    cases hc : lookupCol data n with
    | none => exact ih2
    | some c =>
      obtain ⟨ab, hok⟩ := hpre n (by simp) c hc
      simp only [hok, List.append_eq, ih2]
      rfl

/-- C5 amended: an error raised while fitting any one target metric, at any
position in the target list, is not caught by the loop; it propagates and
aborts the whole build, so no coefficient table is produced at all — the
earlier metrics' successful fits are discarded and the later metrics are
never fit. -/
theorem buildCoeff_error_propagates (data : Columns) (xcol col : List ℝ)
    (pre : List String) (name : String) (rest : List String) (e : PyError)
    (hx : lookupCol data "log generation" = some xcol)
    (hpre : ∀ n ∈ pre, ∀ c, lookupCol data n = some c →
      ∃ ab, power_law_fit xcol c = .ok ab)
    (hcol : lookupCol data name = some col)
    (hfit : power_law_fit xcol col = .error e) :
    buildCoeff data (pre ++ name :: rest) = .error e := by
  simp only [buildCoeff, hx]
  exact fitTargets_error_after xcol data name rest col e hcol hfit pre hpre

/-- C5 witness: `"CPU load"` fits successfully, then fitting `"RX"` raises;
the build aborts, and the trailing `"Read"` target is never reached. -/
theorem buildCoeff_error_propagates_witness :
    buildCoeff [("log generation", [1, Real.exp 1]),
        ("CPU load", [(1 : ℝ), Real.exp 1]), ("RX", [-1, -1])]
      ["CPU load", "RX", "Read"] = .error .typeError := by
  refine buildCoeff_error_propagates
    [("log generation", [1, Real.exp 1]), ("CPU load", [(1 : ℝ), Real.exp 1]),
      ("RX", [-1, -1])]
    [1, Real.exp 1] [-1, -1] ["CPU load"] "RX" ["Read"] .typeError rfl ?_ rfl
    fit_neg_error
  intro n hn c hc
  simp only [List.mem_singleton] at hn
  subst hn
  have hx : lookupCol [("log generation", [1, Real.exp 1]),
      ("CPU load", [(1 : ℝ), Real.exp 1]), ("RX", [-1, -1])] "CPU load"
      = some [(1 : ℝ), Real.exp 1] := rfl
  rw [hx] at hc
  obtain rfl := (Option.some.inj hc).symm
  exact ⟨(1, 1), fit_demo⟩

/-! ### C9: evaluate at x = 0 with a negative exponent -/

/-- C9 counterexample: evaluating the stored curve `(2, -1)` at `x = 0`
does crash: `math.pow(0.0, -1.0)` raises `ValueError: math domain error`,
nothing catches it, and the whole turn aborts with the exception instead of
following a defined non-crashing policy. -/
theorem evaluateAll_zero_neg_counterexample :
    evaluateAll [("cpu load", ((2 : ℝ), (-1 : ℝ)))] ["CPU load"] 0
      = .error .valueError := by
  have h4 : pyLower "CPU load" = "cpu load" := by decide
  have h5 : lookupCoeff [("cpu load", ((2 : ℝ), (-1 : ℝ)))] "cpu load"
      = some (2, -1) := rfl
  simp only [evaluateAll, h4, h5, calcFn, mathPow]
  rw [if_pos trivial, if_neg (by norm_num : ¬((0 : ℝ) ≤ -1)),
    if_neg (lt_irrefl (0 : ℝ))]
  rfl

/-- C9 amended: `evaluate` at `x = 0` with `b < 0` fails with the math domain
error (Python `ValueError`) raised by `math.pow`; the program defines no
other policy and does not catch it. -/
theorem calcFn_zero_neg_valueError (coeff : CoeffTable) (key : String) (a b : ℝ)
    (hkey : lookupCoeff coeff key = some (a, b)) (hb : b < 0) :
    calcFn coeff key 0 = .error .valueError := by
  simp only [calcFn, hkey, mathPow]
  rw [if_pos trivial, if_neg (not_le.mpr hb), if_neg (lt_irrefl (0 : ℝ))]
  rfl

/-- C9 witness: the domain error at a concrete stored pair. -/
theorem calcFn_zero_neg_valueError_witness :
    calcFn [("cpu load", ((2 : ℝ), (-1 : ℝ)))] "cpu load" 0
      = .error .valueError :=
  calcFn_zero_neg_valueError [("cpu load", ((2 : ℝ), (-1 : ℝ)))] "cpu load"
    2 (-1) rfl (by norm_num)

/-! ### C10: missing independent-variable column -/

/-- C10: when the loaded columns lack `"log generation"`, the build fails as
a whole with the `KeyError`: no coefficient table is produced and no target
metric is fit. -/
theorem buildCoeff_missing_independent (data : Columns) (targets : List String)
    (h : lookupCol data "log generation" = none) :
    buildCoeff data targets = .error .keyError := by
  simp only [buildCoeff, h]

/-- C10 witness: a table with only the `"RX"` column aborts at startup. -/
theorem buildCoeff_missing_independent_witness :
    buildCoeff [("RX", [(1 : ℝ), 2])] ["RX"] = .error .keyError :=
  buildCoeff_missing_independent [("RX", [(1 : ℝ), 2])] ["RX"] rfl

/-! ### C3: non-positive samples are silently excluded -/

/-- C3: fitting any parallel series equals fitting the subsequence of sample
pairs with both coordinates strictly positive; in particular the sample set
with the extra pair `(-1, 5)` fits identically to the positive-only set. -/
theorem power_law_fit_filters_nonpositive :
    (∀ x y : List ℝ, power_law_fit x y
      = power_law_fit ((keptPairs x y).map Prod.fst) ((keptPairs x y).map Prod.snd))
    ∧ power_law_fit [-1, 2, 3, 4] [5, 4, 9, 16]
      = power_law_fit [2, 3, 4] [4, 9, 16] := by
  have hself : ∀ x y : List ℝ, power_law_fit x y
      = power_law_fit ((keptPairs x y).map Prod.fst) ((keptPairs x y).map Prod.snd) := by
    intro x y
    simp only [power_law_fit]
    rw [keptPairs_self (keptPairs x y) fun p hp => keptPairs_mem_pos hp]
  refine ⟨hself, ?_⟩
  have h1 : keptPairs [-1, 2, 3, 4] [5, 4, 9, 16] = [(2, 4), (3, 9), (4, 16)] := by
    rw [keptPairs_cons_skip (by norm_num), keptPairs_cons_pos (by norm_num) (by norm_num),
      keptPairs_cons_pos (by norm_num) (by norm_num),
      keptPairs_cons_pos (by norm_num) (by norm_num), keptPairs_nil]
  have h2 : keptPairs [2, 3, 4] [4, 9, 16] = [(2, 4), (3, 9), (4, 16)] := by
    rw [keptPairs_cons_pos (by norm_num) (by norm_num),
      keptPairs_cons_pos (by norm_num) (by norm_num),
      keptPairs_cons_pos (by norm_num) (by norm_num), keptPairs_nil]
  simp only [power_law_fit, h1, h2]

/-! ### C6: build stores each present target under its lower-cased name -/

/-- C6: on a successful build, the coefficient table holds exactly, in target
order, one entry per target name present among the columns, keyed by the
lower-cased name and carrying that target's fit result; names absent from the
columns are skipped without failing. -/
theorem buildCoeff_stores_lowercased (data : Columns) (xcol : List ℝ)
    (targets : List String) (table : CoeffTable)
    (hx : lookupCol data "log generation" = some xcol)
    (hb : buildCoeff data targets = .ok table) :
    table = targets.filterMap fun name =>
      (lookupCol data name).bind fun col =>
        (power_law_fit xcol col).toOption.map fun ab => (pyLower name, ab) := by
  simp only [buildCoeff, hx] at hb
  induction targets generalizing table with
  | nil =>
    simp only [fitTargets] at hb
    simpa [List.filterMap_nil] using hb.symm
  | cons name rest ih =>
    simp only [fitTargets] at hb
    cases hcol : lookupCol data name with
    | none =>
      simp only [hcol] at hb
      simp [List.filterMap_cons, hcol]
      exact ih table hb
    | some col =>
      simp only [hcol] at hb
      cases hfit : power_law_fit xcol col with
      | error e =>
        simp only [hfit] at hb
        exact absurd hb (by simp [Except.bind])
      | ok ab =>
        simp only [hfit] at hb
        cases hrest : fitTargets xcol data rest with
        | error e =>
          simp only [hrest] at hb
          exact absurd hb (by simp [Except.bind, Except.map])
        | ok tail =>
          simp only [hrest, Except.bind, Except.map, Except.ok.injEq] at hb
          rw [← hb, ih tail hrest, List.filterMap_cons]
          simp [hcol, hfit, Except.toOption]

/-- Concrete build over columns `log generation = [1, e]`, `RX = [1, e]` with
targets `["RX", "missing_col"]`: exactly one entry, keyed `"rx"`. -/
lemma build_demo :
    buildCoeff [("log generation", [1, Real.exp 1]), ("RX", [(1 : ℝ), Real.exp 1])]
      ["RX", "missing_col"] = .ok [("rx", (1, 1))] := by
  have h1 : lookupCol [("log generation", [1, Real.exp 1]),
      ("RX", [(1 : ℝ), Real.exp 1])] "log generation" = some [1, Real.exp 1] := rfl
  have h2 : lookupCol [("log generation", [1, Real.exp 1]),
      ("RX", [(1 : ℝ), Real.exp 1])] "RX" = some [(1 : ℝ), Real.exp 1] := rfl
  have h3 : lookupCol [("log generation", [1, Real.exp 1]),
      ("RX", [(1 : ℝ), Real.exp 1])] "missing_col" = none := rfl
  have h4 : pyLower "RX" = "rx" := by decide
  simp only [buildCoeff, h1, fitTargets, h2, h3, fit_demo, h4]
  rfl

/-- C6 witness: with targets `["RX", "missing_col"]` and columns containing
only `"RX"` (plus the independent column), the stored-table description
evaluates to the single entry keyed `"rx"`. -/
theorem buildCoeff_stores_lowercased_witness :
    ([("rx", ((1 : ℝ), (1 : ℝ)))] : CoeffTable)
      = ["RX", "missing_col"].filterMap fun name =>
          (lookupCol [("log generation", [1, Real.exp 1]),
              ("RX", [(1 : ℝ), Real.exp 1])] name).bind fun col =>
            (power_law_fit [1, Real.exp 1] col).toOption.map fun ab =>
              (pyLower name, ab) :=
  buildCoeff_stores_lowercased
    [("log generation", [1, Real.exp 1]), ("RX", [(1 : ℝ), Real.exp 1])]
    [1, Real.exp 1] ["RX", "missing_col"] [("rx", (1, 1))] rfl build_demo

/-! ### C8: the first fitted coefficient is always positive -/

/-- Every entry of a successful fitting loop comes from a successful fit. -/
lemma fitTargets_mem_fit (xcol : List ℝ) (data : Columns)
    (targets : List String) (table : CoeffTable)
    (hb : fitTargets xcol data targets = .ok table)
    {entry : String × (ℝ × ℝ)} (hmem : entry ∈ table) :
    ∃ col, power_law_fit xcol col = .ok entry.2 := by
  induction targets generalizing table with
  | nil =>
    simp only [fitTargets, Except.ok.injEq] at hb
    rw [← hb] at hmem
    exact absurd hmem (by simp)
  | cons name rest ih =>
    simp only [fitTargets] at hb
    cases hcol : lookupCol data name with
    | none =>
      simp only [hcol] at hb
      exact ih table hb hmem
    | some col =>
      simp only [hcol] at hb
      cases hfit : power_law_fit xcol col with
      | error e =>
        simp only [hfit] at hb
        exact absurd hb (by simp [Except.bind])
      | ok ab =>
        simp only [hfit] at hb
        cases hrest : fitTargets xcol data rest with
        | error e =>
          simp only [hrest] at hb
          exact absurd hb (by simp [Except.bind, Except.map])
        | ok tail =>
          simp only [hrest, Except.bind, Except.map, Except.ok.injEq] at hb
          rw [← hb] at hmem
          rcases List.mem_cons.mp hmem with heq | htail
          · exact ⟨col, by rw [heq]; exact hfit⟩
          · exact ih tail hrest htail

/-- C8: every fit result has a strictly positive first coefficient, because
it is built as `np.exp(log_a)`; consequently every entry of a successfully
built coefficient table has a positive first coefficient. -/
theorem power_law_fit_a_positive :
    (∀ (x y : List ℝ) (a b : ℝ), power_law_fit x y = .ok (a, b) → 0 < a) ∧
    (∀ (data : Columns) (targets : List String) (table : CoeffTable)
      (k : String) (a b : ℝ), buildCoeff data targets = .ok table →
      (k, (a, b)) ∈ table → 0 < a) := by
  have h1 : ∀ (x y : List ℝ) (a b : ℝ), power_law_fit x y = .ok (a, b) → 0 < a := by
    intro x y a b h
    simp only [power_law_fit] at h
    cases hp : polyfit1 ((keptPairs x y).map fun p => Real.log p.1)
        ((keptPairs x y).map fun p => Real.log p.2) with
    | error e => rw [hp] at h; exact absurd h (by simp [Except.map])
    | ok p =>
      rw [hp] at h
      simp only [Except.map, Except.ok.injEq, Prod.mk.injEq] at h
      rw [← h.1]
      exact Real.exp_pos p.2
  refine ⟨h1, ?_⟩
  intro data targets table k a b hb hmem
  cases hx : lookupCol data "log generation" with
  | none =>
    simp only [buildCoeff, hx] at hb
    exact absurd hb (by simp)
  | some xcol =>
    simp only [buildCoeff, hx] at hb
    obtain ⟨col, hfit⟩ := fitTargets_mem_fit xcol data targets table hb hmem
    exact h1 xcol col a b hfit

/-- C8 witness: the demo fit's first coefficient is positive. -/
theorem power_law_fit_a_positive_witness : (0 : ℝ) < 1 :=
  power_law_fit_a_positive.1 [1, Real.exp 1] [1, Real.exp 1] 1 1 fit_demo

/-! ### C7: evaluateAll preserves order and skips absent keys -/

/-- C7 counterexample: at `x = 0` with a stored negative exponent the turn
does not return the pairs for the present keys: it aborts with the
math-domain `ValueError`. -/
theorem evaluateAll_zero_counterexample :
    evaluateAll [("rx", ((2 : ℝ), (-1 : ℝ)))] ["RX"] 0 = .error .valueError := by
  have h4 : pyLower "RX" = "rx" := by decide
  have h5 : lookupCoeff [("rx", ((2 : ℝ), (-1 : ℝ)))] "rx" = some (2, -1) := rfl
  simp only [evaluateAll, h4, h5, calcFn, mathPow]
  rw [if_pos trivial, if_neg (by norm_num : ¬((0 : ℝ) ≤ -1)),
    if_neg (lt_irrefl (0 : ℝ))]
  rfl

/-- C7 amended: for every positive `x`, `evaluateAll` returns exactly the
`(key, value)` pairs of the present (lower-cased) keys, in the
caller-supplied target order, skipping absent keys without error. -/
theorem evaluateAll_pos_eval (coeff : CoeffTable) (targets : List String)
    (x : ℝ) (hx : 0 < x) :
    evaluateAll coeff targets x = .ok (targets.filterMap fun name =>
      (lookupCoeff coeff (pyLower name)).map fun ab =>
        (pyLower name, ab.1 * x ^ ab.2)) := by
  induction targets with
  | nil => rfl
  | cons name rest ih =>
    simp only [evaluateAll]
    cases h : lookupCoeff coeff (pyLower name) with
    | none => simp [List.filterMap_cons, h, ih]
    | some ab =>
      obtain ⟨a, b⟩ := ab
      have hc : calcFn coeff (pyLower name) x = .ok (a * x ^ b) := by
        simp only [calcFn, h, mathPow, if_pos hx]
        rfl
      simp [List.filterMap_cons, h, hc, ih, Except.bind, Except.map]

/-- C7 witness: with the table `{"rx" ↦ (2, 1)}` and targets
`["RX", "TX"]`, evaluating at `x = 10` yields exactly `[("rx", 20)]`. -/
theorem evaluateAll_pos_eval_witness :
    evaluateAll [("rx", ((2 : ℝ), (1 : ℝ)))] ["RX", "TX"] 10
      = .ok [("rx", 20)] := by
  have h := evaluateAll_pos_eval [("rx", ((2 : ℝ), (1 : ℝ)))] ["RX", "TX"] 10
    (by norm_num)
  rw [h]
  have h4 : pyLower "RX" = "rx" := by decide
  have h5 : pyLower "TX" = "tx" := by decide
  have h6 : lookupCoeff [("rx", ((2 : ℝ), (1 : ℝ)))] "rx" = some (2, 1) := rfl
  have h7 : lookupCoeff [("rx", ((2 : ℝ), (1 : ℝ)))] "tx" = none := rfl
  simp [List.filterMap_cons, h4, h5, h6, h7]
  norm_num [Real.rpow_one]

/-! ### C1: round-trip recovery of the generating coefficients -/

lemma log_three_lt : Real.log 3 < 3 / 2 := by
  rw [Real.log_lt_iff_lt_exp (by norm_num)]
  have h1 : (1 : ℝ) + 1 < Real.exp 1 := Real.add_one_lt_exp one_ne_zero
  have h2 : (1 : ℝ) / 2 + 1 < Real.exp (1 / 2) := Real.add_one_lt_exp (by norm_num)
  have h3 : Real.exp (3 / 2 : ℝ) = Real.exp 1 * Real.exp (1 / 2) := by
    rw [← Real.exp_add]; norm_num
  rw [h3]
  nlinarith [Real.exp_pos (1 : ℝ), Real.exp_pos ((1 : ℝ) / 2)]

/-- C1 counterexample: two noise-free, strictly positive samples on
`y = 3 * x ** 1.5` sharing the same abscissa `x = e` make the log-design
matrix singular, and `np.polyfit` returns the degenerate minimum-norm
solution, not `(3, 1.5)`. -/
theorem power_law_fit_constant_x_counterexample :
    power_law_fit [Real.exp 1, Real.exp 1]
      ([Real.exp 1, Real.exp 1].map fun t => 3 * t ^ (1.5 : ℝ))
      ≠ .ok (3, 1.5) := by
  have hmap : ([Real.exp 1, Real.exp 1].map fun t => 3 * t ^ (1.5 : ℝ))
      = [Real.exp (Real.log 3 + 3 / 2), Real.exp (Real.log 3 + 3 / 2)] := by
    have hv : (3 : ℝ) * Real.exp 1.5 = Real.exp (Real.log 3 + 3 / 2) := by
      rw [Real.exp_add, Real.exp_log (by norm_num : (0 : ℝ) < 3)]
      norm_num
    simp [Real.exp_one_rpow, hv]
  rw [hmap, fit_two_const 1 (Real.log 3 + 3 / 2) one_ne_zero]
  intro h
  simp only [Except.ok.injEq, Prod.mk.injEq] at h
  have hb := h.2
  have hl := log_three_lt
  norm_num at hb
  linarith

/-- C1 amended: on noise-free strictly positive samples generated exactly by
`y = 3 * x ** 1.5` that contain at least two distinct `x` values (so the
log-space least-squares problem is non-singular), the fit recovers exactly
`a = 3` and `b = 1.5`. -/
theorem power_law_fit_roundtrip (xs : List ℝ) (hpos : ∀ t ∈ xs, 0 < t)
    (hdist : ∃ u ∈ xs, ∃ v ∈ xs, u ≠ v) :
    power_law_fit xs (xs.map fun t => 3 * t ^ (1.5 : ℝ)) = .ok (3, 1.5) := by
  have h3 : (0 : ℝ) < 3 := by norm_num
  have hL1 : (xs.map Real.log).map Real.exp = xs := by
    rw [List.map_map]
    have := List.map_congr_left (l := xs)
      (f := Real.exp ∘ Real.log) (g := id)
      fun t ht => Real.exp_log (hpos t ht)
    rw [this, List.map_id]
  have hL2 : (xs.map Real.log).map (fun s => Real.exp (Real.log 3 + 3 / 2 * s))
      = xs.map fun t => 3 * t ^ (1.5 : ℝ) := by
    rw [List.map_map]
    apply List.map_congr_left
    intro t ht
    show Real.exp (Real.log 3 + 3 / 2 * Real.log t) = 3 * t ^ (1.5 : ℝ)
    rw [Real.exp_add, Real.exp_log h3, Real.rpow_def_of_pos (hpos t ht)]
    norm_num [mul_comm]
  have hdist' : ∃ u ∈ xs.map Real.log, ∃ v ∈ xs.map Real.log, u ≠ v := by
    obtain ⟨u, hu, v, hv, huv⟩ := hdist
    exact ⟨Real.log u, List.mem_map_of_mem _ hu, Real.log v,
      List.mem_map_of_mem _ hv,
      fun h => huv (by rw [← Real.exp_log (hpos u hu), ← Real.exp_log (hpos v hv), h])⟩
  have hmain := fit_affine_core (xs.map Real.log) (Real.log 3) (3 / 2) hdist'
  rw [hL1, hL2] at hmain
  rw [hmain, Real.exp_log h3]
  norm_num

/-- C1 witness: the two-point data set `x = [1, e]` with exact values
`y = 3 * x ** 1.5` recovers `(3, 1.5)`. -/
theorem power_law_fit_roundtrip_witness :
    power_law_fit [1, Real.exp 1] ([1, Real.exp 1].map fun t => 3 * t ^ (1.5 : ℝ))
      = .ok (3, 1.5) := by
  apply power_law_fit_roundtrip
  · intro t ht
    simp only [List.mem_cons, List.not_mem_nil, or_false] at ht
    rcases ht with rfl | rfl
    · norm_num
    · exact Real.exp_pos 1
  · refine ⟨1, by simp, Real.exp 1, by simp, ?_⟩
    have h9 := Real.exp_one_gt_d9
    intro h
    rw [← h] at h9
    norm_num at h9
